import Mathlib

/-!
Verification of the specification-identity and permission-predicate encoding
core of the Prusti verifier, against a shallow embedding of
`prusti-viper/src/encoder/vir/ast/predicate.rs` and
`prusti-specs/src/specifications/common.rs`.
-/

namespace PrustiCore

/- ## The Viper-IR (vir) expression algebra

The `Expr`, `Type`, `Field`, `LocalVar`, `PermAmount` definitions and the
`conjoin` combinator live in the external expression-algebra module of the
encoder (`encoder::vir::ast`), outside the predicate module embedded below.
They are modelled here following the spec's description of that collaborator.
Positions are omitted: every construction in the embedded code uses the
default position. -/

/-- Modelled from the spec: the vir type of a place; composite types are
referred to by a type name (`TypedRef`), primitives are `Int` and `Bool`. -/
inductive VirType where
  | Int : VirType
  | Bool : VirType
  | TypedRef (name : String) : VirType
deriving DecidableEq, Repr

/-- Modelled from the spec: the name of a vir type, used as a predicate name. -/
def VirType.name : VirType → String
  | .Int => "int"
  | .Bool => "bool"
  | .TypedRef n => n

/-- Modelled from the spec: a local variable, its name and type. -/
structure LocalVar where
  name : String
  typ : VirType
deriving DecidableEq, Repr

/-- Modelled from the spec: a heap field, its name and type. -/
structure Field where
  name : String
  typ : VirType
deriving DecidableEq, Repr

/-- `Field::typed_ref_name`: the name of the field's own type predicate,
present exactly when the field's type is a `TypedRef`. -/
def Field.typed_ref_name (f : Field) : Option String :=
  match f.typ with
  | .TypedRef n => some n
  | _ => none

/-- Modelled from the spec: a permission amount (full or fractional). -/
inductive PermAmount where
  | Read : PermAmount
  | Write : PermAmount
deriving DecidableEq, Repr

/-- Modelled from the spec: the external permission-expression algebra —
places, access permissions, predicate-access permissions, conjunction,
implication and ordering comparison; `ConstBool` is the unit of `conjoin`. -/
inductive Expr where
  | Local (v : LocalVar) : Expr
  | FieldE (base : Expr) (f : Field) : Expr
  | FieldAccessPredicate (place : Expr) (perm : PermAmount) : Expr
  | PredicateAccessPredicate (name : String) (arg : Expr) (perm : PermAmount) : Expr
  | And (left right : Expr) : Expr
  | Implies (left right : Expr) : Expr
  | LeCmp (left right : Expr) : Expr
  | ConstBool (b : Bool) : Expr
deriving DecidableEq, Repr

/-- `Expr::acc_permission`: a field access permission on a place. -/
def Expr.acc_permission (place : Expr) (perm : PermAmount) : Expr :=
  Expr.FieldAccessPredicate place perm

/-- `Expr::predicate_access_predicate`: a predicate-access permission
referring to a predicate by name. -/
def Expr.predicate_access_predicate (name : String) (arg : Expr) (perm : PermAmount) : Expr :=
  Expr.PredicateAccessPredicate name arg perm

/-- `Expr::field`: the place selecting field `f` of `e`. -/
def Expr.field (e : Expr) (f : Field) : Expr :=
  Expr.FieldE e f

/-- `Expr::implies`. -/
def Expr.implies (l r : Expr) : Expr := Expr.Implies l r

/-- `Expr::and`. -/
def Expr.and (l r : Expr) : Expr := Expr.And l r

/-- `Expr::le_cmp`. -/
def Expr.le_cmp (l r : Expr) : Expr := Expr.LeCmp l r

/-- Modelled from the spec: the `conjoin` combinator of the expression
algebra — the conjunction, in order, of a list of expressions (left-folded
with `&&`, `true` for the empty list). -/
def conjoin : List Expr → Expr
  | [] => Expr.ConstBool true
  | e :: rest => rest.foldl Expr.And e

/- ## The predicate module (`encoder/vir/ast/predicate.rs`) -/

/-- `StructPredicate`: the predicate for types with exactly one variant;
`body = none` marks an abstract predicate. -/
structure StructPredicate where
  name : String
  this : LocalVar
  body : Option Expr
deriving DecidableEq, Repr

/-- `EnumPredicate`: the predicate for types with zero or more than one
variants; `variants` stores `(guard, variant_name, variant_predicate)`. -/
structure EnumPredicate where
  name : String
  this : LocalVar
  discriminant : Expr
  discriminant_bounds : Expr
  variants : List (Expr × String × StructPredicate)
deriving DecidableEq, Repr

/-- `Predicate`: the tagged union of the two predicate shapes. -/
inductive Predicate where
  | Struct (p : StructPredicate) : Predicate
  | Enum (p : EnumPredicate) : Predicate
deriving DecidableEq, Repr

/-- `Predicate::construct_this`: the predicate's `self` argument. -/
def Predicate.construct_this (typ : VirType) : LocalVar :=
  LocalVar.mk "self" typ

/-- `Predicate::new_abstract`. -/
def Predicate.new_abstract (typ : VirType) : Predicate :=
  Predicate.Struct (StructPredicate.mk typ.name (Predicate.construct_this typ) none)

/-- `Predicate::is_abstract`. -/
def Predicate.is_abstract : Predicate → Bool
  | .Struct p => p.body.isNone
  | .Enum _ => false

/-- `Predicate::new_primitive_value`. -/
def Predicate.new_primitive_value (typ : VirType) (field : Field)
    (bounds : Option (Expr × Expr)) : Predicate :=
  let this := Predicate.construct_this typ
  let val_field := (Expr.Local this).field field
  let perm := Expr.acc_permission val_field PermAmount.Write
  let body :=
    match bounds with
    | some (lower, upper) =>
        conjoin [perm, Expr.le_cmp lower val_field, Expr.le_cmp val_field upper]
    | none => perm
  Predicate.Struct (StructPredicate.mk typ.name this (some body))

/-- The two permission conjuncts `StructPredicate::new` emits for one field:
an access permission on the field place, then a predicate-access permission
naming the field's own type predicate; `none` models the `unwrap` panic when
the field's type has no registered predicate name. -/
def fieldConjuncts (this : LocalVar) (field : Field) : Option (List Expr) :=
  field.typed_ref_name.map fun predicate_name =>
    let location := (Expr.Local this).field field
    let field_perm := Expr.acc_permission location PermAmount.Write
    let pred_perm := Expr.predicate_access_predicate predicate_name location PermAmount.Write
    [field_perm, pred_perm]

/-- The `flat_map` over the fields inside `StructPredicate::new`; any
`unwrap` panic propagates as `none`. -/
def collectConjuncts (this : LocalVar) : List Field → Option (List Expr)
  | [] => some []
  | f :: rest => do
      let c ← fieldConjuncts this f
      let cs ← collectConjuncts this rest
      pure (c ++ cs)

/-- `StructPredicate::new`: the composite (struct) predicate constructor;
`none` models the per-field `unwrap` panic. -/
def StructPredicate.new (typ : VirType) (fields : List Field) : Option StructPredicate :=
  let this := Predicate.construct_this typ
  (collectConjuncts this fields).map fun parts =>
    StructPredicate.mk typ.name this (some (conjoin parts))

/-- `Predicate::new_struct`. -/
def Predicate.new_struct (typ : VirType) (fields : List Field) : Option Predicate :=
  (StructPredicate.new typ fields).map Predicate.Struct

/-- `Predicate::new_enum`. -/
def Predicate.new_enum (this : LocalVar) (discriminant : Expr)
    (discriminant_bounds : Expr)
    (variants : List (Expr × String × StructPredicate)) : Predicate :=
  Predicate.Enum (EnumPredicate.mk this.typ.name this discriminant discriminant_bounds variants)

/-- `StructPredicate::construct_access`: a predicate-access permission naming
this predicate. -/
def StructPredicate.construct_access (p : StructPredicate) (this : Expr)
    (perm_amount : PermAmount) : Expr :=
  Expr.PredicateAccessPredicate p.name this perm_amount

/-- The conjunct `EnumPredicate::body` pushes for one variant entry. -/
def variantConjunct (this : LocalVar) (entry : Expr × String × StructPredicate) : Expr :=
  let (guard, name, variant) := entry
  let field := Field.mk ("enum_" ++ name) variant.this.typ
  let location := (Expr.Local this).field field
  let field_perm := Expr.acc_permission location PermAmount.Write
  let pred_perm := variant.construct_access location PermAmount.Write
  Expr.implies guard (Expr.and field_perm pred_perm)

/-- `EnumPredicate::body`: starts from the discriminant access permission and
the discriminant bounds, pushes one guarded conjunct per variant (the source's
`for` loop, folded left), and conjoins. -/
def EnumPredicate.body (p : EnumPredicate) : Expr :=
  let discriminant_perm := Expr.acc_permission p.discriminant PermAmount.Write
  let parts := p.variants.foldl
    (fun parts entry => parts ++ [variantConjunct p.this entry])
    [discriminant_perm, p.discriminant_bounds]
  conjoin parts

/- ## Textual form (`Display` impls) -/

/-- Modelled from the spec: the textual form of a permission amount. -/
def showPermAmount : PermAmount → String
  | .Read => "read"
  | .Write => "write"

/-- Modelled from the spec: the external expression algebra's textual form,
reproduced verbatim by the predicate displays. -/
def showExpr : Expr → String
  | .Local v => v.name
  | .FieldE base f => showExpr base ++ "." ++ f.name
  | .FieldAccessPredicate place perm =>
      "acc(" ++ showExpr place ++ ", " ++ showPermAmount perm ++ ")"
  | .PredicateAccessPredicate name arg perm =>
      "acc(" ++ name ++ "(" ++ showExpr arg ++ "), " ++ showPermAmount perm ++ ")"
  | .And l r => "(" ++ showExpr l ++ " && " ++ showExpr r ++ ")"
  | .Implies l r => "(" ++ showExpr l ++ " ==> " ++ showExpr r ++ ")"
  | .LeCmp l r => "(" ++ showExpr l ++ " <= " ++ showExpr r ++ ")"
  | .ConstBool b => if b then "true" else "false"

/-- Modelled from the spec: the textual form of a vir type. -/
def showVirType : VirType → String
  | .Int => "Int"
  | .Bool => "Bool"
  | .TypedRef n => "Ref(" ++ n ++ ")"

/-- Modelled from the spec: the textual form of a local variable. -/
def showLocalVar (v : LocalVar) : String :=
  v.name ++ ": " ++ showVirType v.typ

/-- `Display for StructPredicate`: `struct_predicate NAME(SELF);` when
abstract, `struct_predicate NAME(SELF){ BODY }` when concrete. -/
def showStructPredicate (p : StructPredicate) : String :=
  "struct_predicate " ++ p.name ++ "(" ++ showLocalVar p.this ++
    (match p.body with
     | none => ");\n"
     | some body => ")\x7b\n" ++ "  " ++ showExpr body ++ "\n" ++ "\x7d\n")

/-- `Display for EnumPredicate`: the header and discriminant line, then one
entry per variant written by the source's `for` loop (folded left), then the
closing brace. -/
def showEnumPredicate (p : EnumPredicate) : String :=
  let header := "enum_predicate " ++ p.name ++ "(" ++ showLocalVar p.this ++ ")\x7b\n"
  let disc := "  discriminant=" ++ showExpr p.discriminant ++ "\n"
  let withVariants := p.variants.foldl
    (fun acc entry =>
      acc ++ ("  " ++ entry.2.1 ++ ": " ++ showExpr entry.1 ++ " ==> " ++
        showStructPredicate entry.2.2 ++ "\n" ++ "\n"))
    (header ++ disc)
  withVariants ++ "\x7d\n"

/-- A small concrete enum predicate used to exhibit concrete behaviour. -/
def sampleEnum : EnumPredicate :=
  EnumPredicate.mk "E" (LocalVar.mk "self" (VirType.TypedRef "E"))
    ((Expr.Local (LocalVar.mk "self" (VirType.TypedRef "E"))).field
      (Field.mk "discriminant" VirType.Int))
    (Expr.ConstBool true)
    [(Expr.ConstBool true, "A",
      StructPredicate.mk "E_A" (LocalVar.mk "self" (VirType.TypedRef "E_A")) none)]

end PrustiCore

/-- Concatenation of a list of strings, in order (spec-side helper for
stating display shapes). -/
def strConcat : List String → String
  | [] => ""
  | s :: rest => s ++ strConcat rest

/-- A lowercase hexadecimal digit character (spec-side helper). -/
def isLowerHexChar (c : Char) : Bool :=
  c.isDigit || ('a' ≤ c && c ≤ 'f')

namespace PrustiSpecs

/- ## `prusti-specs/src/specifications/common.rs` -/

/-- `SpecType`: the closed taxonomy of specification fragment kinds. -/
inductive SpecType where
  | Precondition : SpecType
  | Postcondition : SpecType
  | Invariant : SpecType
  | Predicate : SpecType
deriving DecidableEq, Repr

/-- `TryFromStringError`. -/
inductive TryFromStringError where
  | UnknownSpecificationType : TryFromStringError
deriving DecidableEq, Repr

/-- `TryFrom<&str> for SpecType`: the specification-type classifier. -/
def SpecType.try_from (typ : String) : Except TryFromStringError SpecType :=
  if typ = "requires" then .ok .Precondition
  else if typ = "ensures" then .ok .Postcondition
  else if typ = "invariant" then .ok .Invariant
  else if typ = "predicate" then .ok .Predicate
  else .error .UnknownSpecificationType

/- ## The 128-bit identifier (`uuid` collaborator)

The `Uuid` type is an external collaborator; it is modelled from the spec as
a 128-bit natural number with the simplified (32 lowercase hex digits) and
canonical hyphenated (8-4-4-4-12) encodings. -/

/-- Modelled from the spec: the lowercase hexadecimal digit character of a
value below 16 (digits then letters, as in the core digit printer). -/
def hexDigitChar (d : Nat) : Char :=
  Nat.digitChar d

/-- Modelled from the spec: the value of a hexadecimal digit character
(either case), `none` for a non-hex character. -/
def hexVal (c : Char) : Option Nat :=
  if c = '0' then some 0 else if c = '1' then some 1
  else if c = '2' then some 2 else if c = '3' then some 3
  else if c = '4' then some 4 else if c = '5' then some 5
  else if c = '6' then some 6 else if c = '7' then some 7
  else if c = '8' then some 8 else if c = '9' then some 9
  else if c = 'a' ∨ c = 'A' then some 10 else if c = 'b' ∨ c = 'B' then some 11
  else if c = 'c' ∨ c = 'C' then some 12 else if c = 'd' ∨ c = 'D' then some 13
  else if c = 'e' ∨ c = 'E' then some 14 else if c = 'f' ∨ c = 'F' then some 15
  else none

/-- Big-endian fixed-width lowercase hexadecimal encoding of `n` on `k`
digits. -/
def encodeHex : Nat → Nat → List Char
  | 0, _ => []
  | k + 1, n => hexDigitChar (n / 16 ^ k) :: encodeHex k (n % 16 ^ k)

/-- Modelled from the spec: `Uuid::to_simple().encode_lower(..)` — the
32-character lowercase hexadecimal encoding of the 128-bit value, no
separators. -/
def toSimple (n : Nat) : String :=
  String.mk (encodeHex 32 n)

/-- Fold a list of hexadecimal digit characters into a number, failing on a
non-hex character. -/
def decodeHexAux (a : Nat) : List Char → Option Nat
  | [] => some a
  | c :: cs =>
      match hexVal c with
      | none => none
      | some d => decodeHexAux (a * 16 + d) cs

/-- Decode a list of hexadecimal digit characters. -/
def decodeHex (cs : List Char) : Option Nat :=
  decodeHexAux 0 cs

/-- Expect a leading hyphen and return the remainder. -/
def expectHyphen : List Char → Option (List Char)
  | c :: rest => if c = '-' then some rest else none
  | [] => none

/-- Strip the hyphens of a canonical 8-4-4-4-12 hyphenated encoding,
returning the 32 hex-digit candidates; `none` when the hyphens are not in
canonical positions. -/
def splitGroups (cs : List Char) : Option (List Char) := do
  let r1 ← expectHyphen (cs.drop 8)
  let r2 ← expectHyphen (r1.drop 4)
  let r3 ← expectHyphen (r2.drop 4)
  let g5 ← expectHyphen (r3.drop 4)
  pure (cs.take 8 ++ r1.take 4 ++ r2.take 4 ++ r3.take 4 ++ g5)

/-- Modelled from the spec: `Uuid::parse_str` — accepts the simplified
(32 hex characters) and the canonical hyphenated (8-4-4-4-12) encodings of a
128-bit value, and fails with a format error on every other string. -/
def parse_str (s : String) : Option Nat :=
  let cs := s.data
  if cs.length = 32 then decodeHex cs
  else if cs.length = 36 then
    match splitGroups cs with
    | some hexs => decodeHex hexs
    | none => none
  else none

/-- Modelled from the spec: `Uuid::new_v4` on a 128-bit random sample —
stamps the version nibble (high nibble of byte 6) to `4` and the variant
bits (top bits of byte 8) to `10`. -/
def new_v4 (r : Nat) : Nat :=
  let hi := r / 256 ^ 10
  let b6 := r / 256 ^ 9 % 256
  let b7 := r / 256 ^ 8 % 256
  let b8 := r / 256 ^ 7 % 256
  let lo := r % 256 ^ 7
  hi * 256 ^ 10 + (64 + b6 % 16) * 256 ^ 9 + b7 * 256 ^ 8 + (128 + b8 % 64) * 256 ^ 7 + lo

/-- `SpecificationId`: a unique ID of a specification element, wrapping a
128-bit value. -/
structure SpecificationId where
  uuid : Nat
deriving DecidableEq, Repr

/-- `Display for SpecificationId`: the simplified lowercase encoding. -/
def SpecificationId.display (id : SpecificationId) : String :=
  toSimple id.uuid

/-- `TryFrom<String> for SpecificationId`: `Uuid::parse_str(&value).map(Self)`. -/
def SpecificationId.try_from (value : String) : Option SpecificationId :=
  (parse_str value).map SpecificationId.mk

/-- `SpecificationId::dummy`: the nil (all-zero) identifier. -/
def SpecificationId.dummy : SpecificationId :=
  SpecificationId.mk 0

/-- `SpecificationIdGenerator::generate`, on a 128-bit random sample `r`. -/
def generate (r : Nat) : SpecificationId :=
  SpecificationId.mk (new_v4 r)

/- ## The name synthesizer -/

/-- The syntactic shape of a `syn::Type`, as far as the name synthesizer
inspects it: a path (its segment identifiers), a slice, or an unrecognized
shape. -/
inductive SynType where
  | path (segments : List String) : SynType
  | slice (elem : SynType) : SynType
  | other : SynType
deriving DecidableEq, Repr

/-- `NameGenerator::generate_name_for_type`: concatenate path segments,
wrap slice element stems as `Slice<ElementStem>`, fail on any other shape. -/
def generate_name_for_type : SynType → Except String String
  | .path segments => .ok (String.join segments)
  | .slice elem =>
      (generate_name_for_type elem).map fun s => "Slice" ++ s
  | .other => .error "could not generate name for type"

/-- `NameGenerator::generate_struct_name`, on the impl's self type and a
128-bit random sample `r`. -/
def generate_struct_name (selfTy : SynType) (r : Nat) : Except String String :=
  (generate_name_for_type selfTy).map fun name_ty =>
    "PrustiStruct" ++ name_ty ++ "_" ++ toSimple r

/-- `NameGenerator::generate_struct_name_for_trait`. -/
def generate_struct_name_for_trait (traitIdent : String) (r : Nat) : String :=
  "PrustiTrait" ++ traitIdent ++ "_" ++ toSimple r

/-- `NameGenerator::generate_mod_name`. -/
def generate_mod_name (ident : String) (r : Nat) : String :=
  ident ++ "_" ++ toSimple r

/-- The simplified encoding of a 128-bit identifier, following the spec's
words: exactly 32 hexadecimal characters, no separators. -/
def isSimpleEncoding (s : String) : Prop :=
  s.data.length = 32 ∧ ∀ c ∈ s.data, (hexVal c).isSome = true

/-- The canonical hyphenated encoding of a 128-bit identifier, following the
spec's words: five hexadecimal groups of sizes 8-4-4-4-12 separated by
hyphens. -/
def isHyphenatedEncoding (s : String) : Prop :=
  ∃ g1 g2 g3 g4 g5 : List Char,
    g1.length = 8 ∧ g2.length = 4 ∧ g3.length = 4 ∧ g4.length = 4 ∧ g5.length = 12 ∧
    (∀ c ∈ g1 ++ g2 ++ g3 ++ g4 ++ g5, (hexVal c).isSome = true) ∧
    s.data = g1 ++ '-' :: (g2 ++ '-' :: (g3 ++ '-' :: (g4 ++ '-' :: g5)))

end PrustiSpecs

/-! ## Theorems -/

namespace PrustiCore

theorem foldl_append_singleton_eq {α β : Type} (g : α → β) (l : List α) (init : List β) :
    l.foldl (fun acc x => acc ++ [g x]) init = init ++ l.map g := by
  induction l generalizing init with
  | nil => simp
  | cons x xs ih => simp [List.foldl_cons, ih]

theorem foldl_append_eq_strConcat {α : Type} (g : α → String) (l : List α) (init : String) :
    l.foldl (fun acc x => acc ++ g x) init = init ++ strConcat (l.map g) := by
  induction l generalizing init with
  | nil => simp [strConcat]
  | cons x xs ih => simp [List.foldl_cons, ih, strConcat, String.append_assoc]

/-- C1: for every `EnumPredicate`, `body()` is the conjunction, in order, of
the access permission on the stored discriminant, the stored discriminant
bounds, and, per variant entry in stored order, the implication from the
guard to the conjunction of an access permission on the synthesized
`enum_<variant_name>` field and the predicate-access permission for the
variant's payload predicate at that field location. -/
theorem enum_predicate_body_shape (p : EnumPredicate) :
    p.body = conjoin
      ([Expr.acc_permission p.discriminant PermAmount.Write, p.discriminant_bounds] ++
        p.variants.map (fun entry =>
          Expr.implies entry.1 (Expr.and
            (Expr.acc_permission
              ((Expr.Local p.this).field (Field.mk ("enum_" ++ entry.2.1) entry.2.2.this.typ))
              PermAmount.Write)
            (Expr.predicate_access_predicate entry.2.2.name
              ((Expr.Local p.this).field (Field.mk ("enum_" ++ entry.2.1) entry.2.2.this.typ))
              PermAmount.Write)))) := by
  simp only [EnumPredicate.body]
  rw [foldl_append_singleton_eq]
  have hmap := List.map_congr_left (l := p.variants) (f := variantConjunct p.this)
    (g := fun entry =>
      Expr.implies entry.1 (Expr.and
        (Expr.acc_permission
          ((Expr.Local p.this).field (Field.mk ("enum_" ++ entry.2.1) entry.2.2.this.typ))
          PermAmount.Write)
        (Expr.predicate_access_predicate entry.2.2.name
          ((Expr.Local p.this).field (Field.mk ("enum_" ++ entry.2.1) entry.2.2.this.typ))
          PermAmount.Write)))
    (fun entry _ => by rcases entry with ⟨g, n, v⟩; rfl)
  rw [hmap]

theorem collectConjuncts_resolved (this : LocalVar) (fields : List Field)
    (h : fields.all (fun f => (Field.typed_ref_name f).isSome) = true) :
    collectConjuncts this fields = some (fields.flatMap (fun f =>
      [Expr.acc_permission ((Expr.Local this).field f) PermAmount.Write,
       Expr.predicate_access_predicate ((Field.typed_ref_name f).getD "")
         ((Expr.Local this).field f) PermAmount.Write])) := by
  induction fields with
  | nil => rfl
  | cons f rest ih =>
      rw [List.all_cons, Bool.and_eq_true] at h
      obtain ⟨h1, h2⟩ := h
      obtain ⟨n, hn⟩ := Option.isSome_iff_exists.mp h1
      simp [collectConjuncts, fieldConjuncts, hn, ih h2, Expr.acc_permission,
        Expr.predicate_access_predicate, Expr.field]

/-- C2: the composite (struct) predicate constructor produces a concrete
`StructPredicate` whose body is `some` of the conjunction, over the fields
in order, of a full access permission on the field followed by a
predicate-access permission naming the field's own type predicate. -/
theorem composite_struct_predicate_body (typ : VirType) (fields : List Field)
    (h : fields.all (fun f => (Field.typed_ref_name f).isSome) = true) :
    Predicate.new_struct typ fields = some (Predicate.Struct
      (StructPredicate.mk typ.name (LocalVar.mk "self" typ)
        (some (conjoin (fields.flatMap (fun f =>
          [Expr.acc_permission ((Expr.Local (LocalVar.mk "self" typ)).field f) PermAmount.Write,
           Expr.predicate_access_predicate ((Field.typed_ref_name f).getD "")
             ((Expr.Local (LocalVar.mk "self" typ)).field f) PermAmount.Write])))))) := by
  simp only [Predicate.new_struct, StructPredicate.new, Predicate.construct_this]
  rw [collectConjuncts_resolved _ _ h]
  rfl

theorem composite_struct_predicate_body_witness :
    ([Field.mk "f1" (VirType.TypedRef "A"), Field.mk "f2" (VirType.TypedRef "B")].all
      (fun f => (Field.typed_ref_name f).isSome) = true) ∧
    Predicate.new_struct (VirType.TypedRef "T")
        [Field.mk "f1" (VirType.TypedRef "A"), Field.mk "f2" (VirType.TypedRef "B")] =
      some (Predicate.Struct
        (StructPredicate.mk (VirType.TypedRef "T").name
          (LocalVar.mk "self" (VirType.TypedRef "T"))
          (some (conjoin
            ([Field.mk "f1" (VirType.TypedRef "A"), Field.mk "f2" (VirType.TypedRef "B")].flatMap
              (fun f =>
                [Expr.acc_permission
                  ((Expr.Local (LocalVar.mk "self" (VirType.TypedRef "T"))).field f)
                  PermAmount.Write,
                 Expr.predicate_access_predicate ((Field.typed_ref_name f).getD "")
                  ((Expr.Local (LocalVar.mk "self" (VirType.TypedRef "T"))).field f)
                  PermAmount.Write])))))) :=
  ⟨by decide, composite_struct_predicate_body _ _ (by decide)⟩

/-- C9: composite (struct) predicate construction is total (no panic) when
every field's type resolves to a registered predicate name. -/
theorem struct_predicate_construction_total (typ : VirType) (fields : List Field)
    (h : fields.all (fun f => (Field.typed_ref_name f).isSome) = true) :
    (Predicate.new_struct typ fields).isSome = true := by
  simp only [Predicate.new_struct, StructPredicate.new, Predicate.construct_this]
  rw [collectConjuncts_resolved _ _ h]
  rfl

theorem struct_predicate_construction_total_witness :
    ([Field.mk "g" (VirType.TypedRef "U")].all
      (fun f => (Field.typed_ref_name f).isSome) = true) ∧
    (Predicate.new_struct (VirType.TypedRef "S") [Field.mk "g" (VirType.TypedRef "U")]).isSome
      = true :=
  ⟨by decide, struct_predicate_construction_total _ _ (by decide)⟩

/-- C8: the textual form of an `EnumPredicate` is the header
`enum_predicate NAME(SELF){`, the `discriminant=DISC` line, then exactly one
`VARIANT: GUARD ==> PAYLOAD` entry per variant, in the stored order of the
variants sequence, then the closing brace. -/
theorem enum_predicate_display_shape (p : EnumPredicate) :
    showEnumPredicate p =
      "enum_predicate " ++ p.name ++ "(" ++ showLocalVar p.this ++ ")\x7b\n" ++
      ("  discriminant=" ++ showExpr p.discriminant ++ "\n") ++
      strConcat (p.variants.map fun entry =>
        "  " ++ entry.2.1 ++ ": " ++ showExpr entry.1 ++ " ==> " ++
          showStructPredicate entry.2.2 ++ "\n" ++ "\n") ++
      "\x7d\n" := by
  simp only [showEnumPredicate]
  rw [foldl_append_eq_strConcat]

theorem foldl_and_ne (l : List Expr) : ∀ a b : Expr, a ≠ b →
    l.foldl Expr.And a ≠ l.foldl Expr.And b := by
  induction l with
  | nil =>
      intro a b h
      simpa using h
  | cons x xs ih =>
      intro a b h
      apply ih
      intro hh
      injection hh with h1 h2
      exact h h1

/-- C10: the stored `discriminant_bounds` never appears in the textual form
of an `EnumPredicate` — the display output is unchanged under any
replacement of the bounds — even though the bounds are part of the computed
`body()`, which does change when the bounds change. -/
theorem enum_display_omits_discriminant_bounds (p : EnumPredicate) (b : Expr) :
    showEnumPredicate { p with discriminant_bounds := b } = showEnumPredicate p ∧
    (b ≠ p.discriminant_bounds →
      EnumPredicate.body { p with discriminant_bounds := b } ≠ EnumPredicate.body p) := by
  constructor
  · rfl
  · intro hne
    simp only [EnumPredicate.body]
    rw [foldl_append_singleton_eq, foldl_append_singleton_eq]
    simp only [conjoin, List.cons_append, List.nil_append, List.foldl_cons]
    apply foldl_and_ne
    intro hh
    injection hh with h1 h2
    exact hne h2

theorem enum_display_omits_discriminant_bounds_witness :
    showEnumPredicate { sampleEnum with discriminant_bounds := Expr.ConstBool false } =
      showEnumPredicate sampleEnum ∧
    Expr.ConstBool false ≠ sampleEnum.discriminant_bounds ∧
    EnumPredicate.body { sampleEnum with discriminant_bounds := Expr.ConstBool false } ≠
      EnumPredicate.body sampleEnum :=
  ⟨(enum_display_omits_discriminant_bounds sampleEnum (Expr.ConstBool false)).1,
   by decide,
   (enum_display_omits_discriminant_bounds sampleEnum (Expr.ConstBool false)).2 (by decide)⟩

end PrustiCore

namespace PrustiSpecs

/-- C3: the specification-type classifier returns `Precondition` for
`requires`, `Postcondition` for `ensures`, `Invariant` for `invariant`,
`Predicate` for `predicate`, and fails with `UnknownSpecificationType` on
every other string. -/
theorem spec_type_classifier_cases :
    SpecType.try_from "requires" = Except.ok SpecType.Precondition ∧
    SpecType.try_from "ensures" = Except.ok SpecType.Postcondition ∧
    SpecType.try_from "invariant" = Except.ok SpecType.Invariant ∧
    SpecType.try_from "predicate" = Except.ok SpecType.Predicate ∧
    ∀ s : String, s ≠ "requires" → s ≠ "ensures" → s ≠ "invariant" → s ≠ "predicate" →
      SpecType.try_from s = Except.error TryFromStringError.UnknownSpecificationType := by
  refine ⟨rfl, rfl, rfl, rfl, ?_⟩
  intro s h1 h2 h3 h4
  simp [SpecType.try_from, h1, h2, h3, h4]

theorem spec_type_classifier_cases_witness :
    ("prusti" : String) ≠ "requires" ∧ ("prusti" : String) ≠ "ensures" ∧
    ("prusti" : String) ≠ "invariant" ∧ ("prusti" : String) ≠ "predicate" ∧
    SpecType.try_from "prusti" = Except.error TryFromStringError.UnknownSpecificationType :=
  ⟨by decide, by decide, by decide, by decide,
    spec_type_classifier_cases.2.2.2.2 "prusti" (by decide) (by decide) (by decide) (by decide)⟩

/-- C6: `dummy()` is the all-zero identifier and `generate()` never returns
it, whatever its 128-bit random sample is — version-4 stamping forces a
nonzero byte. -/
theorem dummy_nil_and_generate_never_dummy :
    SpecificationId.dummy = SpecificationId.mk 0 ∧
    ∀ r : Nat, generate r ≠ SpecificationId.dummy := by
  refine ⟨rfl, ?_⟩
  intro r h
  have h0 : new_v4 r = 0 := by
    simpa [generate, SpecificationId.dummy, SpecificationId.mk.injEq] using h
  simp only [new_v4] at h0
  have e7 : (256 : Nat) ^ 7 = 72057594037927936 := by norm_num
  have e8 : (256 : Nat) ^ 8 = 18446744073709551616 := by norm_num
  have e9 : (256 : Nat) ^ 9 = 4722366482869645213696 := by norm_num
  have e10 : (256 : Nat) ^ 10 = 1208925819614629174706176 := by norm_num
  rw [e7, e8, e9, e10] at h0
  omega

theorem dummy_nil_and_generate_never_dummy_witness :
    generate 0 ≠ SpecificationId.dummy :=
  dummy_nil_and_generate_never_dummy.2 0

theorem encodeHex_length (k : Nat) : ∀ n : Nat, (encodeHex k n).length = k := by
  induction k with
  | zero => intro n; rfl
  | succ k ih => intro n; simp [encodeHex, ih]

theorem hexVal_hexDigitChar : ∀ d : Nat, d < 16 → hexVal (hexDigitChar d) = some d := by
  decide

theorem isLowerHexChar_hexDigitChar : ∀ d : Nat, d < 16 → isLowerHexChar (hexDigitChar d) = true := by
  decide

theorem digit_lt_16 {k n : Nat} (h : n < 16 ^ (k + 1)) : n / 16 ^ k < 16 := by
  have hp : 0 < 16 ^ k := Nat.pos_pow_of_pos k (by norm_num)
  rw [Nat.div_lt_iff_lt_mul hp]
  calc n < 16 ^ (k + 1) := h
    _ = 16 * 16 ^ k := by rw [Nat.pow_succ, Nat.mul_comm]

theorem encodeHex_all_lower (k : Nat) : ∀ n : Nat, n < 16 ^ k →
    (encodeHex k n).all isLowerHexChar = true := by
  induction k with
  | zero => intro n _; rfl
  | succ k ih =>
      intro n hn
      have hp : 0 < 16 ^ k := Nat.pos_pow_of_pos k (by norm_num)
      simp only [encodeHex, List.all_cons, Bool.and_eq_true]
      exact ⟨isLowerHexChar_hexDigitChar _ (digit_lt_16 hn), ih _ (Nat.mod_lt _ hp)⟩

theorem decodeHexAux_encodeHex (k : Nat) : ∀ n a : Nat, n < 16 ^ k →
    decodeHexAux a (encodeHex k n) = some (a * 16 ^ k + n) := by
  induction k with
  | zero =>
      intro n a hn
      interval_cases n
      simp [encodeHex, decodeHexAux]
  | succ k ih =>
      intro n a hn
      have hp : 0 < 16 ^ k := Nat.pos_pow_of_pos k (by norm_num)
      simp only [encodeHex, decodeHexAux, hexVal_hexDigitChar _ (digit_lt_16 hn)]
      rw [ih _ _ (Nat.mod_lt _ hp)]
      have harith : (a * 16 + n / 16 ^ k) * 16 ^ k + n % 16 ^ k =
          a * 16 ^ (k + 1) + (n / 16 ^ k * 16 ^ k + n % 16 ^ k) := by ring
      rw [harith, Nat.div_add_mod' n (16 ^ k)]

/-- C4: the display string of a `SpecificationId` is the 32-character
lowercase hexadecimal encoding of its 128-bit value with no separators, and
parsing the display string back yields the original identifier. -/
theorem specification_id_display_roundtrip (id : SpecificationId)
    (h : id.uuid < 2 ^ 128) :
    (SpecificationId.display id).data.length = 32 ∧
    (SpecificationId.display id).data.all isLowerHexChar = true ∧
    SpecificationId.try_from (SpecificationId.display id) = some id := by
  have h16 : id.uuid < 16 ^ 32 := by
    have e : (16 : Nat) ^ 32 = 2 ^ 128 := by norm_num
    rw [e]; exact h
  have hdata : (SpecificationId.display id).data = encodeHex 32 id.uuid := rfl
  have hlen : (SpecificationId.display id).data.length = 32 := by
    rw [hdata, encodeHex_length]
  refine ⟨hlen, ?_, ?_⟩
  · rw [hdata]
    exact encodeHex_all_lower 32 _ h16
  · simp only [SpecificationId.try_from, parse_str, hdata, encodeHex_length, if_true]
    rw [decodeHex, decodeHexAux_encodeHex 32 _ _ h16]
    simp

theorem specification_id_display_roundtrip_witness :
    (SpecificationId.mk 3 : SpecificationId).uuid < 2 ^ 128 ∧
    ((SpecificationId.display (SpecificationId.mk 3)).data.length = 32 ∧
     (SpecificationId.display (SpecificationId.mk 3)).data.all isLowerHexChar = true ∧
     SpecificationId.try_from (SpecificationId.display (SpecificationId.mk 3)) =
       some (SpecificationId.mk 3)) :=
  ⟨by norm_num, specification_id_display_roundtrip (SpecificationId.mk 3) (by norm_num)⟩

theorem decodeHexAux_isSome (cs : List Char) : ∀ a : Nat,
    (decodeHexAux a cs).isSome = true ↔ ∀ c ∈ cs, (hexVal c).isSome = true := by
  induction cs with
  | nil => intro a; simp [decodeHexAux]
  | cons c cs ih =>
      intro a
      rcases hv : hexVal c with _ | d
      · simp [decodeHexAux, hv]
      · simp [decodeHexAux, hv, ih]

theorem expectHyphen_eq_some (l r : List Char) :
    expectHyphen l = some r ↔ l = '-' :: r := by
  rcases l with _ | ⟨c, cs⟩
  · simp [expectHyphen]
  · by_cases hc : c = '-'
    · subst hc; simp [expectHyphen]
    · simp [expectHyphen, hc]

theorem splitGroups_of_shape (g1 g2 g3 g4 g5 : List Char)
    (l1 : g1.length = 8) (l2 : g2.length = 4) (l3 : g3.length = 4) (l4 : g4.length = 4) :
    splitGroups (g1 ++ '-' :: (g2 ++ '-' :: (g3 ++ '-' :: (g4 ++ '-' :: g5)))) =
      some (g1 ++ g2 ++ g3 ++ g4 ++ g5) := by
  have d1 := @List.drop_left' Char g1 ('-' :: (g2 ++ '-' :: (g3 ++ '-' :: (g4 ++ '-' :: g5)))) 8 l1
  have t1 := @List.take_left' Char g1 ('-' :: (g2 ++ '-' :: (g3 ++ '-' :: (g4 ++ '-' :: g5)))) 8 l1
  have d2 := @List.drop_left' Char g2 ('-' :: (g3 ++ '-' :: (g4 ++ '-' :: g5))) 4 l2
  have t2 := @List.take_left' Char g2 ('-' :: (g3 ++ '-' :: (g4 ++ '-' :: g5))) 4 l2
  have d3 := @List.drop_left' Char g3 ('-' :: (g4 ++ '-' :: g5)) 4 l3
  have t3 := @List.take_left' Char g3 ('-' :: (g4 ++ '-' :: g5)) 4 l3
  have d4 := @List.drop_left' Char g4 ('-' :: g5) 4 l4
  have t4 := @List.take_left' Char g4 ('-' :: g5) 4 l4
  simp [splitGroups, d1, t1, d2, t2, d3, t3, d4, t4, expectHyphen]

theorem splitGroups_shape (cs hexs : List Char) (h36 : cs.length = 36)
    (hsg : splitGroups cs = some hexs) :
    ∃ g1 g2 g3 g4 g5 : List Char,
      g1.length = 8 ∧ g2.length = 4 ∧ g3.length = 4 ∧ g4.length = 4 ∧ g5.length = 12 ∧
      cs = g1 ++ '-' :: (g2 ++ '-' :: (g3 ++ '-' :: (g4 ++ '-' :: g5))) ∧
      hexs = g1 ++ g2 ++ g3 ++ g4 ++ g5 := by
  rcases hr1 : expectHyphen (cs.drop 8) with _ | r1
  · simp [splitGroups, hr1] at hsg
  rcases hr2 : expectHyphen (r1.drop 4) with _ | r2
  · simp [splitGroups, hr1, hr2] at hsg
  rcases hr3 : expectHyphen (r2.drop 4) with _ | r3
  · simp [splitGroups, hr1, hr2, hr3] at hsg
  rcases hr4 : expectHyphen (r3.drop 4) with _ | g5
  · simp [splitGroups, hr1, hr2, hr3, hr4] at hsg
  have hres : cs.take 8 ++ r1.take 4 ++ r2.take 4 ++ r3.take 4 ++ g5 = hexs := by
    simpa [splitGroups, hr1, hr2, hr3, hr4] using hsg
  rw [expectHyphen_eq_some] at hr1 hr2 hr3 hr4
  have hl1 : (cs.drop 8).length = 28 := by simp [h36]
  have hlr1 : r1.length = 27 := by
    have := congrArg List.length hr1; simp [hl1] at this; omega
  have hlr2 : r2.length = 22 := by
    have := congrArg List.length hr2; simp [hlr1] at this; omega
  have hlr3 : r3.length = 17 := by
    have := congrArg List.length hr3; simp [hlr2] at this; omega
  have hlg5 : g5.length = 12 := by
    have := congrArg List.length hr4; simp [hlr3] at this; omega
  refine ⟨cs.take 8, r1.take 4, r2.take 4, r3.take 4, g5, ?_, ?_, ?_, ?_, hlg5, ?_, hres.symm⟩
  · simp [h36]
  · simp [hlr1]
  · simp [hlr2]
  · simp [hlr3]
  · calc cs = cs.take 8 ++ cs.drop 8 := (List.take_append_drop 8 cs).symm
      _ = cs.take 8 ++ '-' :: r1 := by rw [hr1]
      _ = cs.take 8 ++ '-' :: (r1.take 4 ++ r1.drop 4) := by rw [List.take_append_drop]
      _ = cs.take 8 ++ '-' :: (r1.take 4 ++ '-' :: r2) := by rw [hr2]
      _ = cs.take 8 ++ '-' :: (r1.take 4 ++ '-' :: (r2.take 4 ++ r2.drop 4)) := by
            rw [List.take_append_drop]
      _ = cs.take 8 ++ '-' :: (r1.take 4 ++ '-' :: (r2.take 4 ++ '-' :: r3)) := by rw [hr3]
      _ = cs.take 8 ++ '-' :: (r1.take 4 ++ '-' :: (r2.take 4 ++ '-' :: (r3.take 4 ++ r3.drop 4))) := by
            rw [List.take_append_drop]
      _ = cs.take 8 ++ '-' :: (r1.take 4 ++ '-' :: (r2.take 4 ++ '-' :: (r3.take 4 ++ '-' :: g5))) := by
            rw [hr4]

/-- C5: identifier parsing succeeds exactly on the 32-hex-character
simplified encoding and the canonical 8-4-4-4-12 hyphenated encoding of a
128-bit identifier, and fails on every other string. -/
theorem identifier_parse_domain (s : String) :
    (SpecificationId.try_from s).isSome = true ↔
      isSimpleEncoding s ∨ isHyphenatedEncoding s := by
  rw [show (SpecificationId.try_from s).isSome = (parse_str s).isSome from by
    simp [SpecificationId.try_from]]
  by_cases h32 : s.data.length = 32
  · simp only [parse_str]
    rw [if_pos h32, decodeHex, decodeHexAux_isSome]
    constructor
    · intro hall
      exact Or.inl ⟨h32, hall⟩
    · rintro (⟨_, hall⟩ | ⟨g1, g2, g3, g4, g5, l1, l2, l3, l4, l5, _, hdec⟩)
      · exact hall
      · exfalso
        have hlen := congrArg List.length hdec
        simp [l1, l2, l3, l4, l5] at hlen h32
        omega
  · by_cases h36 : s.data.length = 36
    · simp only [parse_str]
      rw [if_neg h32, if_pos h36]
      rcases hsg : splitGroups s.data with _ | hexs
      · simp only [hsg, Option.isSome_none, Bool.false_eq_true, false_iff]
        rintro (⟨hlen, _⟩ | ⟨g1, g2, g3, g4, g5, l1, l2, l3, l4, l5, _, hdec⟩)
        · exact h32 hlen
        · rw [hdec, splitGroups_of_shape g1 g2 g3 g4 g5 l1 l2 l3 l4] at hsg
          exact Option.noConfusion hsg
      · have hshape := splitGroups_shape s.data hexs h36 hsg
        rcases hshape with ⟨g1, g2, g3, g4, g5, l1, l2, l3, l4, l5, hdec, hhexs⟩
        simp only [hsg]
        rw [decodeHex, decodeHexAux_isSome]
        constructor
        · intro hall
          refine Or.inr ⟨g1, g2, g3, g4, g5, l1, l2, l3, l4, l5, ?_, hdec⟩
          intro c hc
          apply hall
          rw [hhexs]
          simpa using hc
        · rintro (⟨hlen, _⟩ | ⟨h1, h2, h3, h4, h5, m1, m2, m3, m4, m5, hallhex, hdec2⟩)
          · exact absurd hlen h32
          · intro c hc
            apply hallhex
            have hgroups : h1 ++ h2 ++ h3 ++ h4 ++ h5 = hexs := by
              have hd : s.data = h1 ++ '-' :: (h2 ++ '-' :: (h3 ++ '-' :: (h4 ++ '-' :: h5))) :=
                hdec2
              have hsg2 := splitGroups_of_shape h1 h2 h3 h4 h5 m1 m2 m3 m4
              rw [← hd, hsg] at hsg2
              exact (Option.some.inj hsg2).symm
            rw [hhexs] at hc
            rw [hgroups.trans hhexs]
            exact hc
    · simp only [parse_str]
      rw [if_neg h32, if_neg h36]
      simp only [Option.isSome_none, Bool.false_eq_true, false_iff]
      rintro (⟨hlen, _⟩ | ⟨g1, g2, g3, g4, g5, l1, l2, l3, l4, l5, _, hdec⟩)
      · exact h32 hlen
      · exfalso
        have hlen := congrArg List.length hdec
        simp [l1, l2, l3, l4, l5] at hlen h36
        omega

/-- C7 counterexample: on the slice-of-`i32` type with the all-zero random
sample, the synthesized struct name is not of the form
`PrustiStruct<TypeStem><32-character-suffix>` — an underscore separates the
stem from the suffix. -/
theorem struct_name_no_separator_counterexample :
    ¬ ∃ suffix : List Char, suffix.length = 32 ∧
      generate_struct_name (SynType.slice (SynType.path ["i32"])) 0 =
        Except.ok (String.mk ("PrustiStructSlicei32".data ++ suffix)) := by
  rintro ⟨suffix, hlen, heq⟩
  have hval : generate_struct_name (SynType.slice (SynType.path ["i32"])) 0 =
      Except.ok (String.mk ("PrustiStructSlicei32_".data ++ List.replicate 32 '0')) := rfl
  rw [hval] at heq
  have hstr := Except.ok.inj heq
  have hdata : "PrustiStructSlicei32_".data ++ List.replicate 32 '0' =
      "PrustiStructSlicei32".data ++ suffix := congrArg String.data hstr
  have hlen2 := congrArg List.length hdata
  rw [List.length_append, List.length_append, List.length_replicate, hlen] at hlen2
  have e1 : "PrustiStructSlicei32_".data.length = 21 := rfl
  have e2 : "PrustiStructSlicei32".data.length = 20 := rfl
  rw [e1, e2] at hlen2
  omega

/-- C7 (amended): for every recognized type shape, the synthesized struct
name is exactly `PrustiStruct`, the type stem, an underscore, and the
32-character lowercase hexadecimal suffix; path stems concatenate the
segment names and slice stems wrap the element stem as `Slice<ElementStem>`
(via `generate_name_for_type`). -/
theorem struct_name_shape (ty : SynType) (stem : String) (r : Nat)
    (hr : r < 2 ^ 128) (hstem : generate_name_for_type ty = Except.ok stem) :
    generate_struct_name ty r =
      Except.ok ("PrustiStruct" ++ stem ++ "_" ++ toSimple r) ∧
    (toSimple r).data.length = 32 ∧
    (toSimple r).data.all isLowerHexChar = true := by
  have h16 : r < 16 ^ 32 := by
    have e : (16 : Nat) ^ 32 = 2 ^ 128 := by norm_num
    rw [e]; exact hr
  refine ⟨?_, ?_, ?_⟩
  · simp [generate_struct_name, hstem, Except.map]
  · exact encodeHex_length 32 r
  · exact encodeHex_all_lower 32 r h16

theorem struct_name_shape_witness :
    (0 : Nat) < 2 ^ 128 ∧
    generate_name_for_type (SynType.slice (SynType.path ["i32"])) = Except.ok "Slicei32" ∧
    (generate_struct_name (SynType.slice (SynType.path ["i32"])) 0 =
        Except.ok ("PrustiStruct" ++ "Slicei32" ++ "_" ++ toSimple 0) ∧
      (toSimple 0).data.length = 32 ∧
      (toSimple 0).data.all isLowerHexChar = true) :=
  ⟨by norm_num, rfl,
   struct_name_shape (SynType.slice (SynType.path ["i32"])) "Slicei32" 0 (by norm_num) rfl⟩

end PrustiSpecs
